import Mathlib

/-!
Shallow embedding of the Web Integrity Guard verification and provenance
engine (content script and background service worker of
`src/contentScript.ts`).  JavaScript strings are modelled as `List Char`;
all characters that the engine inspects are ASCII.  Platform APIs used by
the source (`URLSearchParams`, `URL`, `btoa`, `fetch`, WebCrypto) are
modelled explicitly where noted; network and hashing are oracles passed as
explicit arguments, so every engine function is a pure total function.
-/

/-- JavaScript string, modelled as a list of characters. -/
abbrev JStr := List Char

/-- Whitespace predicate backing `String.prototype.trim` (ASCII range:
space, tab, LF, CR, VT, FF). -/
def wsChar (c : Char) : Bool :=
  c.toNat = 32 || c.toNat = 9 || c.toNat = 10 || c.toNat = 13 ||
  c.toNat = 11 || c.toNat = 12

/-- ASCII upper-case letter. -/
def isUpperChar (c : Char) : Bool := 65 ≤ c.toNat && c.toNat ≤ 90

/-- ASCII lower-case letter. -/
def isLowerChar (c : Char) : Bool := 97 ≤ c.toNat && c.toNat ≤ 122

/-- ASCII digit. -/
def isDigitChar (c : Char) : Bool := 48 ≤ c.toNat && c.toNat ≤ 57

/-- ASCII alphanumeric character. -/
def isAlnumChar (c : Char) : Bool := isUpperChar c || isLowerChar c || isDigitChar c

/-- Character of the URL-safe base64 alphabet `A-Z a-z 0-9 - _`
(the character class of the regex in `inferEncoding` and of
`base64UrlPattern`). -/
def isUrlSafeChar (c : Char) : Bool := isAlnumChar c || c == '-' || c == '_'

/-- Character of the standard base64 alphabet including `+ / =`
(the character class of `base64Pattern` in `normalizeDigest`). -/
def isB64Char (c : Char) : Bool := isAlnumChar c || c == '+' || c == '/' || c == '='

/-- Model of `String.prototype.toLowerCase` on the ASCII range (the only
range that can influence comparisons against the all-ASCII algorithm
tokens `sha256`, `sha384`, `sha512`). -/
def jsToLower (c : Char) : Char :=
  if isUpperChar c then Char.ofNat (c.toNat + 32) else c

/-- Model of `String.prototype.toUpperCase` on the ASCII range (used only
to build the cosmetic `label` field). -/
def jsToUpper (c : Char) : Char :=
  if isLowerChar c then Char.ofNat (c.toNat - 32) else c

/-- Model of `String.prototype.trim`: drop leading and trailing
whitespace. -/
def jsTrim (l : JStr) : JStr :=
  ((l.dropWhile wsChar).reverse.dropWhile wsChar).reverse

/-- Model of `String.prototype.startsWith`. -/
def jsStartsWith (l pat : JStr) : Bool := pat.isPrefixOf l

/-- Model of `String.prototype.includes` (substring search, written as the
scanning loop `indexOf`-style search performs). -/
def jsIncludes (l sub : JStr) : Bool :=
  match l with
  | [] => sub.isPrefixOf ([] : JStr)
  | c :: t => sub.isPrefixOf (c :: t) || jsIncludes t sub

theorem jsIncludes_iff (l sub : JStr) : jsIncludes l sub = true ↔ sub <:+: l := by
  induction l with
  | nil => simp [jsIncludes]
  | cons c t ih => simp [jsIncludes, ih, List.infix_cons_iff]

theorem jsIncludes_singleton_iff (l : JStr) (c : Char) :
    jsIncludes l [c] = true ↔ c ∈ l := by
  rw [jsIncludes_iff]
  constructor
  · rintro ⟨s, t, rfl⟩; simp
  · intro h
    rcases List.append_of_mem h with ⟨s, t, rfl⟩
    exact ⟨s, t, by simp⟩

theorem jsStartsWith_iff (l pat : JStr) : jsStartsWith l pat = true ↔ pat <+: l := by
  simp [jsStartsWith]

/-- Model of `String.prototype.split` with a single-character separator and
no limit (JS returns every separator-delimited segment; a limit argument
truncates the resulting array). -/
def splitOnCh (sep : Char) : JStr → List JStr
  | [] => [[]]
  | c :: rest =>
    if c = sep then [] :: splitOnCh sep rest
    else
      match splitOnCh sep rest with
      | [] => [[c]]
      | s :: ss => (c :: s) :: ss

theorem splitOnCh_ne_nil (sep : Char) (l : JStr) : splitOnCh sep l ≠ [] := by
  cases l with
  | nil => simp [splitOnCh]
  | cons c rest =>
    simp only [splitOnCh]
    split
    · simp
    · split <;> simp

theorem splitOnCh_no_sep {sep : Char} {l : JStr} (h : sep ∉ l) :
    splitOnCh sep l = [l] := by
  induction l with
  | nil => rfl
  | cons c rest ih =>
    have hc : ¬ c = sep := fun e => h (by simp [e])
    have hr : sep ∉ rest := fun e => h (by simp [e])
    simp [splitOnCh, hc, ih hr]

theorem splitOnCh_append {sep : Char} {x : JStr} (y : JStr) (h : sep ∉ x) :
    splitOnCh sep (x ++ sep :: y) = x :: splitOnCh sep y := by
  induction x with
  | nil => simp [splitOnCh]
  | cons c rest ih =>
    have hc : ¬ c = sep := fun e => h (by simp [e])
    have hr : sep ∉ rest := fun e => h (by simp [e])
    show splitOnCh sep (c :: (rest ++ sep :: y)) = (c :: rest) :: splitOnCh sep y
    rw [splitOnCh, if_neg hc, ih hr]

/-- The digest comparison of the background worker (`timingSafeEquals` in
the source): reject on length mismatch, otherwise accumulate the XOR of
every pair of character codes into one mismatch word and compare it with
zero. -/
def timingSafeEquals (a b : JStr) : Bool :=
  if a.length ≠ b.length then false
  else ((a.zip b).foldl (fun m p => m ||| (p.1.toNat ^^^ p.2.toNat)) 0) == 0

theorem charToNat_eq_iff {c d : Char} : c.toNat = d.toNat ↔ c = d := by
  constructor
  · intro h
    have := congrArg Char.ofNat h
    simpa using this
  · intro h; rw [h]

theorem natOr_eq_zero_iff (m n : Nat) : m ||| n = 0 ↔ m = 0 ∧ n = 0 := by
  constructor
  · intro h
    constructor
    · apply Nat.eq_of_testBit_eq
      intro i
      have hb := congrArg (fun x => Nat.testBit x i) h
      simp only [Nat.testBit_or, Nat.zero_testBit, Bool.or_eq_false_iff] at hb
      simp [hb.1]
    · apply Nat.eq_of_testBit_eq
      intro i
      have hb := congrArg (fun x => Nat.testBit x i) h
      simp only [Nat.testBit_or, Nat.zero_testBit, Bool.or_eq_false_iff] at hb
      simp [hb.2]
  · rintro ⟨rfl, rfl⟩; rfl

theorem foldl_orXor_eq_zero (l : List (Char × Char)) (m : Nat) :
    (l.foldl (fun m p => m ||| (p.1.toNat ^^^ p.2.toNat)) m = 0) ↔
      (m = 0 ∧ ∀ p ∈ l, p.1 = p.2) := by
  induction l generalizing m with
  | nil => simp
  | cons p t ih =>
    simp only [List.foldl_cons, ih, natOr_eq_zero_iff, Nat.xor_eq_zero,
      charToNat_eq_iff, List.mem_cons]
    constructor
    · rintro ⟨⟨h1, h2⟩, h3⟩
      exact ⟨h1, fun q hq => hq.elim (fun e => e ▸ h2) (h3 q)⟩
    · rintro ⟨h1, h2⟩
      exact ⟨⟨h1, h2 p (Or.inl rfl)⟩, fun q hq => h2 q (Or.inr hq)⟩

theorem zip_forall_eq : ∀ {a b : JStr}, a.length = b.length →
    ((∀ p ∈ a.zip b, p.1 = p.2) ↔ a = b)
  | [], [], _ => by simp
  | [], _ :: _, h => by simp at h
  | _ :: _, [], h => by simp at h
  | x :: xs, y :: ys, h => by
    have hl : xs.length = ys.length := by simpa using h
    have ihx := zip_forall_eq hl
    simp only [List.zip_cons_cons, List.mem_cons, List.cons_eq_cons]
    constructor
    · intro hp
      refine ⟨hp (x, y) (Or.inl rfl), ?_⟩
      exact ihx.mp (fun q hq => hp q (Or.inr hq))
    · rintro ⟨rfl, rfl⟩
      intro q hq
      rcases hq with h | h
      · rw [h]
      · exact (ihx.mpr rfl) q h

theorem timingSafe_eq_decide (a b : JStr) : timingSafeEquals a b = decide (a = b) := by
  unfold timingSafeEquals
  by_cases h : a.length = b.length
  · simp only [h, ne_eq, not_true_eq_false, if_false]
    have hiff : ((a.zip b).foldl (fun m p => m ||| (p.1.toNat ^^^ p.2.toNat)) 0 = 0) ↔ a = b := by
      rw [foldl_orXor_eq_zero]
      constructor
      · rintro ⟨-, hp⟩
        exact (zip_forall_eq h).mp hp
      · intro e
        exact ⟨rfl, (zip_forall_eq h).mpr e⟩
    rw [Bool.eq_iff_iff]
    simp only [beq_iff_eq, decide_eq_true_eq]
    exact hiff
  · have hne : a ≠ b := fun e => h (by rw [e])
    simp [h, hne]

/-- C7: for every pair of strings `a` and `b`, `constantTimeEquals`
(`timingSafeEquals` in the source) returns true if and only if `a = b`;
in particular it is false whenever the lengths differ, and for equal
lengths the accumulated XOR flag is zero exactly on equal strings.  The
running-time part of the spec sentence is a timing property outside the
functional embedding. -/
theorem claim_C7_constantTimeEquals : ∀ a b : JStr, timingSafeEquals a b = true ↔ a = b := by
  intro a b
  rw [timingSafe_eq_decide]
  simp

/-! URLSearchParams model.  The source manipulates the fragment through the
platform `URLSearchParams` API; the model below follows the WHATWG
application/x-www-form-urlencoded parser and serializer for the ASCII
range (multi-byte UTF-8 percent sequences do not occur in any input the
claims concern). -/

/-- Value of an ASCII hex digit. -/
def hexVal (c : Char) : Option Nat :=
  if isDigitChar c then some (c.toNat - 48)
  else if 65 ≤ c.toNat && c.toNat ≤ 70 then some (c.toNat - 55)
  else if 97 ≤ c.toNat && c.toNat ≤ 102 then some (c.toNat - 87)
  else none

/-- Model of urlencoded component decoding: `+` becomes a space, `%XX`
becomes the code point `XX`, malformed escapes stay literal. -/
def percentDecode : JStr → JStr
  | [] => []
  | '+' :: rest => ' ' :: percentDecode rest
  | '%' :: h1 :: h2 :: rest =>
    match hexVal h1, hexVal h2 with
    | some v1, some v2 => Char.ofNat (16 * v1 + v2) :: percentDecode rest
    | _, _ => '%' :: percentDecode (h1 :: h2 :: rest)
  | c :: rest => c :: percentDecode rest

/-- Model of the urlencoded parser backing `new URLSearchParams(s)`:
split on `&`, skip empty segments, split each segment on the first `=`. -/
def parseQuery (l : JStr) : List (JStr × JStr) :=
  (splitOnCh '&' l).filterMap fun seg =>
    if seg = [] then none
    else
      let key := seg.takeWhile (fun c => !(c == '='))
      let value := match seg.drop key.length with
        | '=' :: v => v
        | _ => []
      some (percentDecode key, percentDecode value)

/-- Model of `URLSearchParams.get`: the value of the first pair with the
given name, or null. -/
def getParam (params : List (JStr × JStr)) (name : JStr) : Option JStr :=
  match params with
  | [] => none
  | (k, v) :: rest => if k = name then some v else getParam rest name

/-- Worker for `setParam`: replace the first pair named `name`, drop the
others, append when absent (`seen` records whether a pair was already
replaced). -/
def setParamGo (name value : JStr) (seen : Bool) : List (JStr × JStr) → List (JStr × JStr)
  | [] => if seen then [] else [(name, value)]
  | (k, v) :: rest =>
    if k = name then
      if seen then setParamGo name value true rest
      else (name, value) :: setParamGo name value true rest
    else (k, v) :: setParamGo name value seen rest

/-- Model of `URLSearchParams.set`. -/
def setParam (params : List (JStr × JStr)) (name value : JStr) : List (JStr × JStr) :=
  setParamGo name value false params

/-- Characters the urlencoded serializer leaves unescaped. -/
def formSafeChar (c : Char) : Bool :=
  isAlnumChar c || c == '*' || c == '-' || c == '.' || c == '_'

/-- Upper-case hex digit of a value below 16. -/
def hexDigitChar (n : Nat) : Char := ("0123456789ABCDEF".toList).getD n '0'

/-- Model of urlencoded component serialization (ASCII range). -/
def encodeComponent (l : JStr) : JStr :=
  (l.map fun c =>
    if formSafeChar c then [c]
    else if c == ' ' then ['+']
    else ['%', hexDigitChar (c.toNat / 16 % 16), hexDigitChar (c.toNat % 16)]).flatten

/-- Model of `URLSearchParams.toString`. -/
def toQueryString (params : List (JStr × JStr)) : JStr :=
  List.intercalate ['&'] (params.map fun p => encodeComponent p.1 ++ '=' :: encodeComponent p.2)

/-- Digest encodings of the engine (`base64` | `base64url`). -/
inductive VerificationEncoding
  | base64
  | base64url
deriving DecidableEq

namespace ContentScript

/-- Parsed provenance reference (`SourceDescriptor` in the source; the
`provider` field is the literal string `github`). -/
structure SourceDescriptor where
  provider : JStr
  repo : JStr
  runId : JStr
  jobId : JStr
  logUrl : JStr
  portalUrl : JStr
deriving DecidableEq

/-- Parsed integrity assertion (`IntegrityDescriptor` in the source). -/
structure IntegrityDescriptor where
  algorithm : JStr
  encoding : VerificationEncoding
  digest : JStr
  label : JStr
  source : Option SourceDescriptor
deriving DecidableEq

/-- The content script's `inferEncoding`: classify as `base64url` when the
digest matches `^[A-Za-z0-9-_]+$` (`urlSafe`) and contains neither `+`
nor `/` (`hasUrlOnlyChars`), else `base64`. -/
def inferEncoding (digest : JStr) : VerificationEncoding :=
  let urlSafe := !digest.isEmpty && digest.all isUrlSafeChar
  let hasUrlOnlyChars := !(jsIncludes digest ['+']) && !(jsIncludes digest ['/'])
  if urlSafe && hasUrlOnlyChars then .base64url else .base64

/-- The content script's `normalizeAlgorithm`: trim, lower-case, look the
token up in the fixed `{sha256, sha384, sha512}` table. -/
def normalizeAlgorithm (value : JStr) : Option JStr :=
  let key := (jsTrim value).map jsToLower
  if key = "sha256".toList then some ("sha256".toList)
  else if key = "sha384".toList then some ("sha384".toList)
  else if key = "sha512".toList then some ("sha512".toList)
  else none

/-- The content script's `parseSourceDescriptor` applied to the value of
the `integrity-src` parameter (null when the parameter is missing). -/
def parseSourceDescriptor (value : Option JStr) : Option SourceDescriptor :=
  match value with
  | none => none
  | some v =>
    if v = [] then none
    else
      match (splitOnCh ':' v).map jsTrim with
      | [providerCode, repo, runId, jobId] =>
        if providerCode = [] ∨ repo = [] ∨ runId = [] ∨ jobId = [] then none
        else if providerCode ≠ "gh".toList ∧ providerCode ≠ "github".toList then none
        else
          let cleanRepo := if ("github.com/".toList).isPrefixOf repo then repo.drop 11 else repo
          if !(jsIncludes cleanRepo ['/']) then none
          else
            let portalUrl := "https://github.com/".toList ++ cleanRepo ++ "/actions/runs/".toList ++ runId
            let logUrl := portalUrl ++ "/job/".toList ++ jobId
            some ⟨"github".toList, cleanRepo, runId, jobId, logUrl, portalUrl⟩
      | _ => none

/-- Core of `parseIntegrityDescriptor` on the extracted `integrity`
parameter value: `split("-", 2)` (JavaScript truncates the array to the
first two segments), reject empty or missing sides, normalize the
algorithm, infer the encoding, trim the digest. -/
def parseIntegrityValue (v : JStr) (srcParam : Option JStr) : Option IntegrityDescriptor :=
  match (splitOnCh '-' v).take 2 with
  | [a, b] =>
    if a = [] ∨ b = [] then none
    else
      match normalizeAlgorithm a with
      | none => none
      | some alg =>
        some ⟨alg, inferEncoding b, jsTrim b, alg.map jsToUpper, parseSourceDescriptor srcParam⟩
  | _ => none

/-- The content script's `parseIntegrityDescriptor` on a raw location
hash. -/
def parseIntegrityDescriptor (hash : JStr) : Option IntegrityDescriptor :=
  if hash.length ≤ 1 then none
  else
    let params := parseQuery (hash.drop 1)
    match getParam params ("integrity".toList) with
    | none => none
    | some v => if v = [] then none else parseIntegrityValue v (getParam params ("integrity-src".toList))

/-- The WebCrypto `AlgorithmIdentifier` union: a string, an object with a
string `name` field, or anything else. -/
inductive AlgorithmIdentifier
  | strId (s : JStr)
  | objId (name : JStr)
  | otherId
deriving DecidableEq

/-- The content script's `DEFAULT_ALGORITHM`. -/
def DEFAULT_ALGORITHM : JStr := "sha256".toList

/-- The content script's `sanitizeAlgorithmToken`: lower-case, drop every
character outside `[a-z0-9]`, keep the result only when it is a supported
token, else fall back to the default. -/
def sanitizeAlgorithmToken (value : JStr) : JStr :=
  let clean := (value.map jsToLower).filter (fun c => isLowerChar c || isDigitChar c)
  if clean = "sha256".toList ∨ clean = "sha384".toList ∨ clean = "sha512".toList then clean
  else DEFAULT_ALGORITHM

/-- The content script's `algorithmIdentifierToFragment`. -/
def algorithmIdentifierToFragment : AlgorithmIdentifier → JStr
  | .strId s => sanitizeAlgorithmToken s
  | .objId name => sanitizeAlgorithmToken name
  | .otherId => DEFAULT_ALGORITHM

/-- Hash-rewriting core of the content script's `applyIntegrityFragment`:
parse the current hash payload as query parameters, set `integrity` to
`<algorithm>-<digest>`, re-serialize; the returned string is the new
location hash (the origin/path/search parts and the `history.replaceState`
side effect are unchanged by the source and out of scope). -/
def applyIntegrityFragmentHash (oldHash : JStr) (algorithm : AlgorithmIdentifier)
    (digest : JStr) : JStr :=
  let normalizedAlgorithm := algorithmIdentifierToFragment algorithm
  let hashPayload := if jsStartsWith oldHash ['#'] then oldHash.drop 1 else oldHash
  let params := setParam (parseQuery hashPayload) ("integrity".toList)
    (normalizedAlgorithm ++ '-' :: digest)
  let nextHash := toQueryString params
  if nextHash = [] then [] else '#' :: nextHash

end ContentScript

/-! Digest codec of the background worker. -/

/-- Strip every trailing `=` (the `replace(/=+$/u, "")` of the source). -/
def stripTrailingEq (l : JStr) : JStr :=
  (l.reverse.dropWhile (fun c => c == '=')).reverse

namespace Background

/-- The standard base64 alphabet used by `btoa`. -/
def b64Alphabet : JStr :=
  "ABCDEFGHIJKLMNOPQRSTUVWXYZabcdefghijklmnopqrstuvwxyz0123456789+/".toList

/-- Alphabet character of a sextet value. -/
def b64Char (n : Nat) : Char := b64Alphabet.getD n 'A'

/-- Unpadded base64 body of a byte sequence (three bytes become four
sextet characters; one or two trailing bytes become two or three). -/
def b64Body : List (Fin 256) → JStr
  | [] => []
  | [b0] => [b64Char (b0.val / 4), b64Char (b0.val % 4 * 16)]
  | [b0, b1] =>
    [b64Char (b0.val / 4), b64Char (b0.val % 4 * 16 + b1.val / 16), b64Char (b1.val % 16 * 4)]
  | b0 :: b1 :: b2 :: rest =>
    b64Char (b0.val / 4) :: b64Char (b0.val % 4 * 16 + b1.val / 16) ::
    b64Char (b1.val % 16 * 4 + b2.val / 64) :: b64Char (b2.val % 64) :: b64Body rest

/-- Number of `=` padding characters `btoa` appends. -/
def b64PadLen : List (Fin 256) → Nat
  | [] => 0
  | [_] => 2
  | [_, _] => 1
  | _ :: _ :: _ :: rest => b64PadLen rest

/-- The background worker's `arrayBufferToBase64`, with the `btoa`
platform call modelled as RFC 4648 base64 of the byte sequence. -/
def arrayBufferToBase64 (buffer : List (Fin 256)) : JStr :=
  b64Body buffer ++ List.replicate (b64PadLen buffer) '='

/-- Character substitution of `encodeDigest` for `base64url`
(`+` to `-` and `/` to `_`, applied by two global string replaces). -/
def plusSlashMap (c : Char) : Char :=
  if c == '+' then '-' else if c == '/' then '_' else c

/-- The background worker's `encodeDigest`. -/
def encodeDigest (buffer : List (Fin 256)) (encoding : VerificationEncoding) : JStr :=
  let base64 := arrayBufferToBase64 buffer
  match encoding with
  | .base64 => base64
  | .base64url => stripTrailingEq (base64.map plusSlashMap)

/-- Test of the `base64UrlPattern` regex `^[A-Za-z0-9-_]+=?=?$`: because
`=` is not in the class, a match is a non-empty URL-safe core followed by
at most two `=`. -/
def base64UrlPatternTest (l : JStr) : Bool :=
  let core := l.takeWhile isUrlSafeChar
  let rest := l.drop core.length
  !core.isEmpty && rest.all (fun c => c == '=') && rest.length ≤ 2

/-- The background worker's `normalizeDigest`: trim, reject empty, then
check the encoding's character pattern; for `base64url` additionally strip
trailing padding. -/
def normalizeDigest (digest : JStr) (encoding : VerificationEncoding) : Option JStr :=
  let trimmed := jsTrim digest
  if trimmed = [] then none
  else
    match encoding with
    | .base64 => if trimmed.all isB64Char then some trimmed else none
    | .base64url =>
      if base64UrlPatternTest trimmed then some (stripTrailingEq trimmed) else none

/-- The background worker's `normalizeAlgorithm`: the
`SUPPORTED_ALGORITHMS` table mapping tokens to WebCrypto identifiers. -/
def normalizeAlgorithm (input : JStr) : Option JStr :=
  let key := (jsTrim input).map jsToLower
  if key = "sha256".toList then some ("SHA-256".toList)
  else if key = "sha384".toList then some ("SHA-384".toList)
  else if key = "sha512".toList then some ("SHA-512".toList)
  else none

end Background

/-- Decimal digits of a number (used for the status codes interpolated
into failure reasons). -/
def natStr (n : Nat) : JStr := Nat.toDigits 10 n

/-- Split a string at the first occurrence of `sep`, returning the parts
before and after it. -/
def splitFirstOcc (sep : JStr) : JStr → Option (JStr × JStr)
  | [] => if sep = [] then some ([], []) else none
  | c :: rest =>
    if sep.isPrefixOf (c :: rest) then some ([], (c :: rest).drop sep.length)
    else
      match splitFirstOcc sep rest with
      | none => none
      | some (pre, post) => some (c :: pre, post)

/-- Model of the WHATWG `new URL(s).pathname` for hierarchical
`scheme://host/path?query#fragment` URLs: `none` models the constructor
throwing on an unparsable input. -/
def urlPathname (s : JStr) : Option JStr :=
  match splitFirstOcc ("://".toList) s with
  | none => none
  | some (scheme, rest) =>
    if scheme = [] then none
    else
      let afterHost := rest.dropWhile (fun c => !(c == '/' || c == '?' || c == '#'))
      match afterHost with
      | '/' :: _ => some (afterHost.takeWhile (fun c => !(c == '?' || c == '#')))
      | _ => some ['/']

/-- The background worker's `stripFragment`: parse the URL and clear its
hash; the modelled normalization only removes the fragment part, which is
the only aspect the engine's result depends on; an unparsable URL is
returned unchanged (the catch branch). -/
def stripFragment (inputUrl : JStr) : JStr :=
  if (urlPathname inputUrl).isSome then inputUrl.takeWhile (fun c => !(c == '#'))
  else inputUrl

namespace Background

/-- The `VERIFY_PAGE_DIGEST` request payload. -/
structure VerifyPageMessage where
  url : JStr
  expectedDigest : JStr
  algorithm : JStr
  encoding : VerificationEncoding
deriving DecidableEq

/-- Outcome of the `fetch` + `arrayBuffer` pair inside
`handleVerification`: a status with the body bytes, or a thrown
network error caught by the surrounding try block. -/
inductive ByteFetchOutcome
  | ok (status : Nat) (body : List (Fin 256))
  | threw (msg : JStr)
deriving DecidableEq

/-- The `VerifyPageResponse` union of the source (`matchesFlag` is the
`matches` field; `matches` is reserved in Lean). -/
inductive VerifyPageResponse
  | ok (matchesFlag : Bool) (actualDigest : JStr) (algorithm : JStr)
      (encoding : VerificationEncoding) (url : JStr)
  | err (error : JStr)
deriving DecidableEq

/-- The fetch API's `Response.ok`: status in the 2xx range. -/
def responseOkStatus (status : Nat) : Bool := 200 ≤ status && status ≤ 299

/-- The background worker's `handleVerification`.  The network is the
`fetched` argument and WebCrypto's `digest` is the `digestOracle`
argument (an arbitrary total function from algorithm identifier and body
bytes to hash bytes), so the embedding is total: no exception crosses the
engine boundary. -/
def handleVerification (message : VerifyPageMessage) (fetched : ByteFetchOutcome)
    (digestOracle : JStr → List (Fin 256) → List (Fin 256)) : VerifyPageResponse :=
  match normalizeAlgorithm message.algorithm with
  | none => .err ("Unsupported algorithm: ".toList ++ message.algorithm)
  | some normalizedAlgorithm =>
    match normalizeDigest message.expectedDigest message.encoding with
    | none => .err ("Digest is missing or malformed.".toList)
    | some normalizedDigest =>
      let targetUrl := stripFragment message.url
      match fetched with
      | .threw m => .err m
      | .ok status body =>
        if !(responseOkStatus status) then
          .err ("Failed to fetch resource: ".toList ++ natStr status)
        else
          let actualDigest := encodeDigest (digestOracle normalizedAlgorithm body) message.encoding
          .ok (timingSafeEquals actualDigest normalizedDigest) actualDigest
            normalizedAlgorithm message.encoding targetUrl

/-- Verification engine behaviour as the spec words it: `Failure` exactly
for unsupported algorithm, malformed digest, thrown fetch error or
non-success status; otherwise `Success` whose `matches` flag is the
plain equality of the computed digest with the normalized expected
digest. -/
def handleVerificationSpec (message : VerifyPageMessage) (fetched : ByteFetchOutcome)
    (digestOracle : JStr → List (Fin 256) → List (Fin 256)) : VerifyPageResponse :=
  match normalizeAlgorithm message.algorithm with
  | none => .err ("Unsupported algorithm: ".toList ++ message.algorithm)
  | some normalizedAlgorithm =>
    match normalizeDigest message.expectedDigest message.encoding with
    | none => .err ("Digest is missing or malformed.".toList)
    | some normalizedDigest =>
      let targetUrl := stripFragment message.url
      match fetched with
      | .threw m => .err m
      | .ok status body =>
        if !(responseOkStatus status) then
          .err ("Failed to fetch resource: ".toList ++ natStr status)
        else
          let actualDigest := encodeDigest (digestOracle normalizedAlgorithm body) message.encoding
          .ok (decide (actualDigest = normalizedDigest)) actualDigest
            normalizedAlgorithm message.encoding targetUrl

/-- The fetch `Response` fields `handleSourceVerification` inspects. -/
structure SourceResponse where
  status : Nat
  redirected : Bool
  url : JStr
  body : JStr
deriving DecidableEq

/-- Outcome of the provenance-log fetch: a response, or a thrown network
error caught by the surrounding try block. -/
inductive TextFetchOutcome
  | ok (r : SourceResponse)
  | threw (msg : JStr)
deriving DecidableEq

/-- The background worker's `requiresGithubAuth`. -/
def requiresGithubAuth (response : SourceResponse) : Bool :=
  if response.status = 401 then true
  else if response.redirected && jsIncludes response.url ("/login".toList) then true
  else if !response.url.isEmpty then
    match urlPathname response.url with
    | some p => jsStartsWith p ("/login".toList)
    | none => false
  else false

/-- The `VerifySourceResponse` union of the source (`authRequired` is
false where the source omits the optional field). -/
inductive VerifySourceResponse
  | ok (found : Bool) (logUrl portalUrl : JStr)
  | err (error : JStr) (authRequired : Bool) (loginUrl : Option JStr)
deriving DecidableEq

/-- The background worker's `handleSourceVerification` (the
`promptGithubLogin` tab side effect carries no result data and is out of
scope). -/
def handleSourceVerification (token : JStr) (source : ContentScript.SourceDescriptor)
    (fetched : TextFetchOutcome) : VerifySourceResponse :=
  if source.provider ≠ "github".toList then
    .err ("Unsupported source provider.".toList) false none
  else
    match fetched with
    | .threw m => .err m false none
    | .ok response =>
      if requiresGithubAuth response then
        .err ("GitHub authentication required.".toList) true (some response.url)
      else if !(responseOkStatus response.status) then
        .err ("Failed to load log: ".toList ++ natStr response.status) false none
      else
        .ok (jsIncludes response.body token) source.logUrl source.portalUrl

/-- Authentication-wall condition stated independently of the
implementation's string helpers: status 401, or redirected with `/login`
occurring anywhere in the final URL, or (redirect or not) a non-empty
final URL that parses with a path beginning with `/login`. -/
def requiresAuthSpec (r : SourceResponse) : Bool :=
  decide (r.status = 401) ||
  (r.redirected && decide (("/login".toList : JStr) <:+: r.url)) ||
  (!r.url.isEmpty && (match urlPathname r.url with
    | some p => decide (("/login".toList : JStr) <+: p)
    | none => false))

/-- Provenance engine behaviour as the amended claim words it: the auth
condition is checked first and yields `AuthRequired` with the final URL
as login hint; then a non-success status yields `Failure` with the
status; otherwise `Found` exactly when the token occurs in the body as a
substring. -/
def handleSourceVerificationSpec (token : JStr) (source : ContentScript.SourceDescriptor)
    (fetched : TextFetchOutcome) : VerifySourceResponse :=
  if source.provider ≠ "github".toList then
    .err ("Unsupported source provider.".toList) false none
  else
    match fetched with
    | .threw m => .err m false none
    | .ok response =>
      if requiresAuthSpec response then
        .err ("GitHub authentication required.".toList) true (some response.url)
      else if !(responseOkStatus response.status) then
        .err ("Failed to load log: ".toList ++ natStr response.status) false none
      else
        .ok (decide ((token : JStr) <:+: response.body)) source.logUrl source.portalUrl

end Background

/-! Session state flow for a provenance check (claim C9).  The trace below
lists, in execution order, every state the Session State Tracker is set
to while one `VERIFY_SOURCE_REFERENCE` round trip is processed: the
background listener sets `loading` at dispatch, applies the result rule
after `handleSourceVerification` resolves, and the content script's
`verifySourceReference` plus the `verifyDescriptor` epilogue then report
states through `REPORT_TAB_STATE` (each report is applied verbatim by the
background listener). -/

/-- The four visual states of a session (`TabVisualState`). -/
inductive TabVisualState
  | absent
  | loading
  | verified
  | rejected
deriving DecidableEq

/-- The content script's `SourceVerificationStatus`. -/
inductive SourceVerificationStatus
  | success
  | auth
  | failure
deriving DecidableEq

/-- What the content script observes for its provenance request: a
delivered `VerifySourceResponse`, an undefined response, or a rejected
`sendMessage` promise. -/
inductive ProvenanceOutcome
  | response (r : Background.VerifySourceResponse)
  | noResponse
  | channelError (msg : JStr)
deriving DecidableEq

/-- States set by the background `VERIFY_SOURCE_REFERENCE` branch:
`loading` at dispatch, then `verified`/`rejected` when the result is
`ok`, nothing more when it is not (`channelError` models the message
never reaching a listener). -/
def backgroundDispatchStates : ProvenanceOutcome → List TabVisualState
  | .response (.ok found _ _) => [.loading, if found then .verified else .rejected]
  | .response (.err _ _ _) => [.loading]
  | .noResponse => [.loading]
  | .channelError _ => []

/-- The content script's `verifySourceReference` body: the returned
status together with the `reportTabState` calls it performs (the
`escalateDanger` helper reports `rejected`; the auth branch reports
`loading`). -/
def verifySourceReferenceOutcome :
    ProvenanceOutcome → SourceVerificationStatus × List TabVisualState
  | .noResponse => (.failure, [.rejected])
  | .channelError _ => (.failure, [.rejected])
  | .response (.err _ authRequired _) =>
    if authRequired then (.auth, [.loading]) else (.failure, [.rejected])
  | .response (.ok found _ _) =>
    if found then (.success, []) else (.failure, [.rejected])

/-- `verifyDescriptor` after `verifySourceReference` returns: report
`verified` on success, re-report `loading` on auth, nothing on failure
(the failure branch already escalated). -/
def verifyDescriptorEpilogue : SourceVerificationStatus → List TabVisualState
  | .success => [.verified]
  | .auth => [.loading]
  | .failure => []

/-- All tracker states set, in order, while one provenance outcome is
processed. -/
def provenanceSessionTrace (o : ProvenanceOutcome) : List TabVisualState :=
  backgroundDispatchStates o ++ (verifySourceReferenceOutcome o).2 ++
    verifyDescriptorEpilogue (verifySourceReferenceOutcome o).1

/-- An `AuthRequired` provenance outcome. -/
def isAuthRequiredOutcome : ProvenanceOutcome → Bool
  | .response (.err _ authRequired _) => authRequired
  | _ => false

/-- An engine `Failure` outcome (non-auth error response, missing
response, or rejected message channel). -/
def isEngineFailureOutcome : ProvenanceOutcome → Bool
  | .response (.err _ authRequired _) => !authRequired
  | .noResponse => true
  | .channelError _ => true
  | .response (.ok _ _ _) => false

/-- A provenance `NotFound` outcome. -/
def isNotFoundOutcome : ProvenanceOutcome → Bool
  | .response (.ok found _ _) => !found
  | _ => false

/-! Helper lemmas. -/

theorem dropWhile_all_false {p : Char → Bool} : ∀ {l : JStr},
    (∀ c ∈ l, p c = false) → l.dropWhile p = l
  | [], _ => rfl
  | c :: t, h => by
    rw [List.dropWhile_cons_of_neg (by simp [h c (by simp)])]

theorem takeWhile_all_true {p : Char → Bool} : ∀ {l : JStr},
    (∀ c ∈ l, p c = true) → l.takeWhile p = l
  | [], _ => rfl
  | c :: t, h => by
    rw [List.takeWhile_cons_of_pos (h c (by simp))]
    rw [takeWhile_all_true (fun x hx => h x (by simp [hx]))]

theorem jsTrim_of_no_ws {l : JStr} (h : ∀ c ∈ l, wsChar c = false) : jsTrim l = l := by
  unfold jsTrim
  rw [dropWhile_all_false h]
  rw [dropWhile_all_false (fun c hc => h c (List.mem_reverse.mp hc))]
  exact List.reverse_reverse l

theorem urlSafe_not_ws {c : Char} (h : isUrlSafeChar c = true) : wsChar c = false := by
  simp only [isUrlSafeChar, isAlnumChar, isUpperChar, isLowerChar, isDigitChar,
    Bool.or_eq_true, Bool.and_eq_true, decide_eq_true_eq, beq_iff_eq] at h
  rcases h with (⟨h1, h2⟩ | ⟨h1, h2⟩ | ⟨h1, h2⟩) | rfl | rfl
  · simp only [wsChar, Bool.or_eq_false_iff, decide_eq_false_iff_not]
    omega
  · simp only [wsChar, Bool.or_eq_false_iff, decide_eq_false_iff_not]
    omega
  · simp only [wsChar, Bool.or_eq_false_iff, decide_eq_false_iff_not]
    omega
  · decide
  · decide

theorem stripTrailingEq_of_no_eq {l : JStr} (h : ∀ c ∈ l, (c == '=') = false) :
    stripTrailingEq l = l := by
  unfold stripTrailingEq
  rw [dropWhile_all_false (fun c hc => h c (List.mem_reverse.mp hc))]
  exact List.reverse_reverse l

theorem dropWhile_replicate_append {p : Char → Bool} {a : Char} (h : p a = true) :
    ∀ (k : Nat) (t : JStr), (List.replicate k a ++ t).dropWhile p = t.dropWhile p := by
  intro k
  induction k with
  | zero => intro t; rfl
  | succ n ih =>
    intro t
    rw [List.replicate_succ, List.cons_append, List.dropWhile_cons_of_pos h, ih]

theorem stripTrailingEq_append_pad {l : JStr} (k : Nat)
    (h : ∀ c ∈ l, (c == '=') = false) :
    stripTrailingEq (l ++ List.replicate k '=') = l := by
  unfold stripTrailingEq
  rw [List.reverse_append, List.reverse_replicate]
  rw [dropWhile_replicate_append (by decide) k l.reverse]
  rw [dropWhile_all_false (fun c hc => h c (List.mem_reverse.mp hc))]
  exact List.reverse_reverse l

theorem jsIncludes_eq_decide (l sub : JStr) : jsIncludes l sub = decide (sub <:+: l) := by
  rw [Bool.eq_iff_iff]
  simp [jsIncludes_iff]

theorem jsStartsWith_eq_decide (l pat : JStr) : jsStartsWith l pat = decide (pat <+: l) := by
  rw [Bool.eq_iff_iff]
  simp [jsStartsWith_iff]

theorem inferEncoding_url_iff (d : JStr) :
    ContentScript.inferEncoding d = .base64url ↔
      (d ≠ [] ∧ ∀ c ∈ d, isUrlSafeChar c = true) := by
  simp only [ContentScript.inferEncoding]
  by_cases hcond : ((!d.isEmpty && d.all isUrlSafeChar) &&
      (!(jsIncludes d ['+']) && !(jsIncludes d ['/']))) = true
  · rw [if_pos hcond]
    simp only [Bool.and_eq_true, Bool.not_eq_true'] at hcond
    obtain ⟨⟨hne, hall⟩, -⟩ := hcond
    have hne2 : d ≠ [] := by
      intro e
      subst e
      simp at hne
    exact ⟨fun _ => ⟨hne2, fun c hc => List.all_eq_true.mp hall c hc⟩, fun _ => rfl⟩
  · rw [if_neg hcond]
    constructor
    · intro h
      exact absurd h (by decide)
    · rintro ⟨hne, hall⟩
      exfalso
      apply hcond
      have h1 : d.isEmpty = false := by
        cases d with
        | nil => exact absurd rfl hne
        | cons _ _ => rfl
      have h2 : d.all isUrlSafeChar = true := List.all_eq_true.mpr hall
      have h3 : jsIncludes d ['+'] = false := by
        cases hj : jsIncludes d ['+'] with
        | false => rfl
        | true =>
          have hm := (jsIncludes_singleton_iff d '+').mp hj
          exact absurd (hall _ hm) (by decide)
      have h4 : jsIncludes d ['/'] = false := by
        cases hj : jsIncludes d ['/'] with
        | false => rfl
        | true =>
          have hm := (jsIncludes_singleton_iff d '/').mp hj
          exact absurd (hall _ hm) (by decide)
      rw [h1, h2, h3, h4]
      rfl

theorem sanitizeAlgorithmToken_supported (v : JStr) :
    ContentScript.sanitizeAlgorithmToken v = "sha256".toList ∨
    ContentScript.sanitizeAlgorithmToken v = "sha384".toList ∨
    ContentScript.sanitizeAlgorithmToken v = "sha512".toList := by
  simp only [ContentScript.sanitizeAlgorithmToken]
  split
  · next h =>
    rcases h with h | h | h
    · exact Or.inl h
    · exact Or.inr (Or.inl h)
    · exact Or.inr (Or.inr h)
  · exact Or.inl rfl

theorem getD_mem_or {α : Type} (l : List α) (n : Nat) (d : α) :
    l.getD n d ∈ l ∨ l.getD n d = d := by
  rw [List.getD_eq_getElem?_getD]
  cases h : l[n]? with
  | none => exact Or.inr rfl
  | some a => exact Or.inl (by simpa using List.getElem?_mem h)

theorem b64Char_mem (n : Nat) : Background.b64Char n ∈ Background.b64Alphabet := by
  unfold Background.b64Char
  rcases getD_mem_or Background.b64Alphabet n 'A' with h | h
  · exact h
  · rw [h]
    decide

theorem b64Body_mem : ∀ (bs : List (Fin 256)), ∀ c ∈ Background.b64Body bs,
    c ∈ Background.b64Alphabet
  | [] => by simp [Background.b64Body]
  | [b0] => by
    intro c hc
    simp only [Background.b64Body, List.mem_cons, List.not_mem_nil, or_false] at hc
    rcases hc with rfl | rfl
    · exact b64Char_mem _
    · exact b64Char_mem _
  | [b0, b1] => by
    intro c hc
    simp only [Background.b64Body, List.mem_cons, List.not_mem_nil, or_false] at hc
    rcases hc with rfl | rfl | rfl
    · exact b64Char_mem _
    · exact b64Char_mem _
    · exact b64Char_mem _
  | b0 :: b1 :: b2 :: rest => by
    intro c hc
    simp only [Background.b64Body, List.mem_cons] at hc
    rcases hc with rfl | rfl | rfl | rfl | hc
    · exact b64Char_mem _
    · exact b64Char_mem _
    · exact b64Char_mem _
    · exact b64Char_mem _
    · exact b64Body_mem rest c hc

theorem b64Body_ne_nil : ∀ {bs : List (Fin 256)}, bs ≠ [] → Background.b64Body bs ≠ []
  | [], h => absurd rfl h
  | [_], _ => by simp [Background.b64Body]
  | [_, _], _ => by simp [Background.b64Body]
  | _ :: _ :: _ :: _, _ => by simp [Background.b64Body]

theorem alphabet_psMap_props : ∀ c ∈ Background.b64Alphabet,
    isUrlSafeChar (Background.plusSlashMap c) = true ∧
    (Background.plusSlashMap c == '=') = false ∧
    wsChar (Background.plusSlashMap c) = false := by decide

theorem encodeDigest_url_eq (bs : List (Fin 256)) :
    Background.encodeDigest bs .base64url =
      (Background.b64Body bs).map Background.plusSlashMap := by
  simp only [Background.encodeDigest, Background.arrayBufferToBase64]
  rw [List.map_append, List.map_replicate]
  rw [show Background.plusSlashMap '=' = '=' from rfl]
  apply stripTrailingEq_append_pad
  intro c hc
  rcases List.mem_map.mp hc with ⟨c0, hc0, rfl⟩
  exact (alphabet_psMap_props c0 (b64Body_mem bs c0 hc0)).2.1

theorem encodeDigest_url_chars {bs : List (Fin 256)} :
    ∀ c ∈ Background.encodeDigest bs .base64url, isUrlSafeChar c = true := by
  intro c hc
  rw [encodeDigest_url_eq] at hc
  rcases List.mem_map.mp hc with ⟨c0, hc0, rfl⟩
  exact (alphabet_psMap_props c0 (b64Body_mem bs c0 hc0)).1

theorem requiresGithubAuth_eq_spec (r : Background.SourceResponse) :
    Background.requiresGithubAuth r = Background.requiresAuthSpec r := by
  unfold Background.requiresGithubAuth Background.requiresAuthSpec
  by_cases h1 : r.status = 401
  · simp [h1]
  · rw [if_neg h1]
    rw [decide_eq_false h1, Bool.false_or]
    by_cases h2 : (r.redirected && jsIncludes r.url ("/login".toList)) = true
    · rw [if_pos h2]
      rw [jsIncludes_eq_decide] at h2
      rw [h2]
      rfl
    · rw [if_neg h2]
      rw [jsIncludes_eq_decide] at h2
      rw [Bool.eq_false_iff.mpr h2, Bool.false_or]
      by_cases h3 : r.url.isEmpty
      · simp [h3]
      · rw [Bool.not_eq_true] at h3
        rw [h3]
        simp only [Bool.not_false, if_true, Bool.true_and]
        cases hp : urlPathname r.url with
        | none => rfl
        | some p => exact jsStartsWith_eq_decide p ("/login".toList)

/-! Claim theorems. -/

/-- C1 (failing-input evaluation): the claim's round-trip property fails
on the code.  For the hash bytes `0xFB 0xEF 0xBE` the generation engine's
`encodeDigest` produces the base64url digest `----`; embedding it with
`applyIntegrityFragment` (algorithm identifier `SHA-256` as returned by
the engine) yields the fragment `#integrity=sha256-----`, and re-parsing
that fragment with `parseIntegrityDescriptor` returns `none` instead of
an equivalent descriptor, because `split("-", 2)` truncates to the first
two segments and leaves an empty digest side. -/
theorem claim_C1_roundtrip_fails :
    Background.encodeDigest [(251 : Fin 256), 239, 190] VerificationEncoding.base64url =
      "----".toList ∧
    ContentScript.applyIntegrityFragmentHash []
        (ContentScript.AlgorithmIdentifier.strId ("SHA-256".toList))
        (Background.encodeDigest [(251 : Fin 256), 239, 190] VerificationEncoding.base64url) =
      "#integrity=sha256-----".toList ∧
    ContentScript.parseIntegrityDescriptor
        (ContentScript.applyIntegrityFragmentHash []
          (ContentScript.AlgorithmIdentifier.strId ("SHA-256".toList))
          (Background.encodeDigest [(251 : Fin 256), 239, 190] VerificationEncoding.base64url)) =
      none := by
  decide

/-- C2 (failing-input evaluation): the claim says `rawDigest` is the
entire remainder of the value after the first `-`; on the fragment
`#integrity=sha256-ab-cd` the parser instead produces the digest `ab`
(JavaScript's `split("-", 2)` truncates the array after two segments and
drops `cd`), not `ab-cd`. -/
theorem claim_C2_split_truncates :
    (ContentScript.parseIntegrityDescriptor ("#integrity=sha256-ab-cd".toList)).map
      (fun d => d.digest) = some ("ab".toList) ∧
    ("ab".toList : JStr) ≠ ("ab-cd".toList : JStr) := by
  decide

/-- C3 counterexample: the digest `abc` contains no `-`, so the claim
classifies it as base64; `inferEncoding` in the source classifies it as
base64url (the at-least-one-`-` requirement is absent from the code). -/
theorem claim_C3_counterexample :
    ContentScript.inferEncoding ("abc".toList) = VerificationEncoding.base64url ∧
    '-' ∉ ("abc".toList : JStr) := by
  decide

/-- C3 amended: `inferEncoding` classifies a raw digest as base64url if
and only if it is non-empty and consists only of characters
`A-Z a-z 0-9 - _`; the code's additional no-`+`/no-`/` checks are implied
by the character class, and no occurrence of `-` is required.  Every
other digest is classified as base64. -/
theorem claim_C3_amended : ∀ d : JStr,
    ContentScript.inferEncoding d = VerificationEncoding.base64url ↔
      (d ≠ [] ∧ ∀ c ∈ d, isUrlSafeChar c = true) :=
  fun d => inferEncoding_url_iff d

theorem parseIntegrityValue_url {v : JStr} {srcParam : Option JStr}
    {d : ContentScript.IntegrityDescriptor}
    (hparse : ContentScript.parseIntegrityValue v srcParam = some d)
    (henc : d.encoding = VerificationEncoding.base64url) :
    d.digest ≠ [] ∧ ∀ c ∈ d.digest, isUrlSafeChar c = true := by
  simp only [ContentScript.parseIntegrityValue] at hparse
  split at hparse
  · next x a b heq =>
    split at hparse
    · cases hparse
    · split at hparse
      · cases hparse
      · next alg halg =>
        injection hparse with hd
        subst hd
        obtain ⟨hne, hall⟩ := (inferEncoding_url_iff b).mp henc
        have ht : jsTrim b = b :=
          jsTrim_of_no_ws (fun c hc => urlSafe_not_ws (hall c hc))
        constructor
        · show jsTrim b ≠ []
          rw [ht]
          exact hne
        · show ∀ c ∈ jsTrim b, isUrlSafeChar c = true
          rw [ht]
          exact hall
  · cases hparse

/-- C4 amended: the parse-time character-set invariant holds only for the
base64url side of the heuristic: every descriptor `parseIntegrityDescriptor`
produces with inferred encoding base64url has a non-empty digest composed
entirely of URL-safe characters.  For encoding base64 the parser performs
no character-set validation (see the counterexample), deferring it to
`normalizeDigest` at verification time. -/
theorem claim_C4_amended : ∀ (hash : JStr) (d : ContentScript.IntegrityDescriptor),
    ContentScript.parseIntegrityDescriptor hash = some d →
    d.encoding = VerificationEncoding.base64url →
    d.digest ≠ [] ∧ ∀ c ∈ d.digest, isUrlSafeChar c = true := by
  intro hash d hparse henc
  simp only [ContentScript.parseIntegrityDescriptor] at hparse
  split at hparse
  · cases hparse
  · split at hparse
    · cases hparse
    · split at hparse
      · cases hparse
      · exact parseIntegrityValue_url hparse henc

theorem claim_C4_amended_witness :
    ("ab_c".toList : JStr) ≠ [] ∧ ∀ c ∈ ("ab_c".toList : JStr), isUrlSafeChar c = true :=
  claim_C4_amended ("#integrity=sha256-ab_c".toList)
    ⟨"sha256".toList, VerificationEncoding.base64url, "ab_c".toList, "SHA256".toList, none⟩
    (by decide) rfl

/-- C4 counterexample: the fragment `#integrity=sha256-$$$$` parses to a
descriptor with encoding base64 whose digest `$$$$` lies entirely outside
the base64 alphabet, so the claimed invariant fails for base64
descriptors. -/
theorem claim_C4_counterexample :
    (ContentScript.parseIntegrityDescriptor ("#integrity=sha256-$$$$".toList)).map
      (fun d => (d.encoding, d.digest)) =
        some (VerificationEncoding.base64, "$$$$".toList) ∧
    isB64Char '$' = false := by
  decide

/-- C5 amended: `handleSourceVerification` behaves as the amended claim
states — the result is `AuthRequired` (with the final URL as login hint,
checked before the generic status check) iff the status is 401, or the
response was redirected and the final URL contains `/login` anywhere, or
the non-empty final URL parses as a URL whose path begins with `/login`
(with or without a redirect); otherwise a non-success status yields
`Failure` with that status; otherwise `Found` exactly when the body
contains the token as a plain substring. -/
theorem claim_C5_amended :
    ∀ (token : JStr) (source : ContentScript.SourceDescriptor)
      (fetched : Background.TextFetchOutcome),
    Background.handleSourceVerification token source fetched =
      Background.handleSourceVerificationSpec token source fetched := by
  intro token source fetched
  by_cases hp : source.provider ≠ "github".toList
  · simp only [Background.handleSourceVerification, Background.handleSourceVerificationSpec,
      if_pos hp]
  · cases fetched with
    | threw m =>
      simp only [Background.handleSourceVerification, Background.handleSourceVerificationSpec,
        if_neg hp]
    | ok r =>
      simp only [Background.handleSourceVerification, Background.handleSourceVerificationSpec,
        if_neg hp]
      rw [requiresGithubAuth_eq_spec, jsIncludes_eq_decide]

/-- Response used by the C5 counterexample: a 200, non-redirected answer
served from the `/login` page itself, whose body contains the token. -/
def exLoginResponse : Background.SourceResponse :=
  ⟨200, false, "https://github.com/login".toList, "the token tok appears".toList⟩

/-- Source descriptor used by the C5 counterexample. -/
def exSourceDescriptor : ContentScript.SourceDescriptor :=
  ⟨"github".toList, "octo/repo".toList, "42".toList, "7".toList,
    "https://github.com/octo/repo/actions/runs/42/job/7".toList,
    "https://github.com/octo/repo/actions/runs/42".toList⟩

/-- C5 counterexample: a response with status 200 that was NOT redirected
(so the claim's auth condition — status 401, or redirected to a path
beginning with `/login` — is false) and whose body contains the token:
the claim predicts `Found`; the code returns `AuthRequired` because its
third check fires on the final URL's path `/login` without requiring a
redirect. -/
theorem claim_C5_counterexample :
    (exLoginResponse.status ≠ 401 ∧ exLoginResponse.redirected = false ∧
      Background.responseOkStatus exLoginResponse.status = true ∧
      jsIncludes exLoginResponse.body ("tok".toList) = true) ∧
    Background.handleSourceVerification ("tok".toList) exSourceDescriptor
        (Background.TextFetchOutcome.ok exLoginResponse) =
      Background.VerifySourceResponse.err ("GitHub authentication required.".toList) true
        (some exLoginResponse.url) := by
  decide

/-- C6: the verification engine, with the network fetch and the WebCrypto
digest passed as oracles, coincides with the spec-level behaviour: the
result is `Success{matches, actualDigest, url}` with `matches` the plain
equality of the computed digest against the normalized expected digest
(so a mismatch is a `Success` with `matches = false`), and `Failure`
arises exactly for an unsupported algorithm, a malformed digest, a thrown
fetch error, or a non-success HTTP status; being a total Lean function,
the embedded engine throws nothing past the boundary. -/
theorem claim_C6_handleVerification :
    ∀ (message : Background.VerifyPageMessage) (fetched : Background.ByteFetchOutcome)
      (digestOracle : JStr → List (Fin 256) → List (Fin 256)),
    Background.handleVerification message fetched digestOracle =
      Background.handleVerificationSpec message fetched digestOracle := by
  intro message fetched digestOracle
  unfold Background.handleVerification Background.handleVerificationSpec
  cases hA : Background.normalizeAlgorithm message.algorithm with
  | none => rfl
  | some alg =>
    cases hD : Background.normalizeDigest message.expectedDigest message.encoding with
    | none => rfl
    | some nd =>
      cases fetched with
      | threw m => rfl
      | ok status body => simp [timingSafe_eq_decide]

theorem urlSafe_ne_eqChar {c : Char} (h : isUrlSafeChar c = true) : (c == '=') = false := by
  cases hb : (c == '=') with
  | false => rfl
  | true =>
    have hc : c = '=' := by simpa using hb
    subst hc
    exact absurd h (by decide)

/-- C8: for every non-empty hash byte buffer `h` (digest outputs are 32,
48 or 64 bytes, never empty), `encodeDigest h base64url` contains no `+`,
`/` or `=`, and `normalizeDigest` accepts it under base64url and returns
it unchanged. -/
theorem claim_C8_encode_normalize_roundtrip :
    ∀ h : List (Fin 256), h ≠ [] →
    ('+' ∉ Background.encodeDigest h VerificationEncoding.base64url ∧
     '/' ∉ Background.encodeDigest h VerificationEncoding.base64url ∧
     '=' ∉ Background.encodeDigest h VerificationEncoding.base64url) ∧
    Background.normalizeDigest (Background.encodeDigest h VerificationEncoding.base64url)
        VerificationEncoding.base64url =
      some (Background.encodeDigest h VerificationEncoding.base64url) := by
  intro h hne
  have hchars : ∀ c ∈ Background.encodeDigest h VerificationEncoding.base64url,
      isUrlSafeChar c = true := encodeDigest_url_chars
  have houtne : Background.encodeDigest h VerificationEncoding.base64url ≠ [] := by
    rw [encodeDigest_url_eq]
    intro e
    exact b64Body_ne_nil hne (List.map_eq_nil_iff.mp e)
  have htrim : jsTrim (Background.encodeDigest h VerificationEncoding.base64url) =
      Background.encodeDigest h VerificationEncoding.base64url :=
    jsTrim_of_no_ws (fun c hc => urlSafe_not_ws (hchars c hc))
  have hstrip : stripTrailingEq (Background.encodeDigest h VerificationEncoding.base64url) =
      Background.encodeDigest h VerificationEncoding.base64url :=
    stripTrailingEq_of_no_eq (fun c hc => urlSafe_ne_eqChar (hchars c hc))
  refine ⟨⟨?_, ?_, ?_⟩, ?_⟩
  · intro hm
    exact absurd (hchars _ hm) (by decide)
  · intro hm
    exact absurd (hchars _ hm) (by decide)
  · intro hm
    exact absurd (hchars _ hm) (by decide)
  · have hie : (Background.encodeDigest h VerificationEncoding.base64url).isEmpty = false := by
      cases he : Background.encodeDigest h VerificationEncoding.base64url with
      | nil => exact absurd he houtne
      | cons _ _ => rfl
    have htest : Background.base64UrlPatternTest
        (Background.encodeDigest h VerificationEncoding.base64url) = true := by
      simp only [Background.base64UrlPatternTest, takeWhile_all_true hchars,
        List.drop_length, hie]
      rfl
    simp only [Background.normalizeDigest, htrim]
    rw [if_neg houtne, if_pos htest, hstrip]

theorem claim_C8_witness :
    ('+' ∉ Background.encodeDigest [(0 : Fin 256)] VerificationEncoding.base64url ∧
     '/' ∉ Background.encodeDigest [(0 : Fin 256)] VerificationEncoding.base64url ∧
     '=' ∉ Background.encodeDigest [(0 : Fin 256)] VerificationEncoding.base64url) ∧
    Background.normalizeDigest
        (Background.encodeDigest [(0 : Fin 256)] VerificationEncoding.base64url)
        VerificationEncoding.base64url =
      some (Background.encodeDigest [(0 : Fin 256)] VerificationEncoding.base64url) :=
  claim_C8_encode_normalize_roundtrip [(0 : Fin 256)] (by decide)

/-- C9: over one provenance round trip, an `AuthRequired` outcome ends
with the tracker in `loading` and `rejected` never appears in the trace,
while every engine `Failure` outcome (non-auth error response, missing
response, rejected channel) and every `NotFound` outcome ends with the
tracker in `rejected` — no failure is silently swallowed. -/
theorem claim_C9_session_states :
    ∀ o : ProvenanceOutcome,
    (isAuthRequiredOutcome o = true →
      (provenanceSessionTrace o).getLast? = some TabVisualState.loading ∧
        TabVisualState.rejected ∉ provenanceSessionTrace o) ∧
    (isEngineFailureOutcome o = true →
      (provenanceSessionTrace o).getLast? = some TabVisualState.rejected) ∧
    (isNotFoundOutcome o = true →
      (provenanceSessionTrace o).getLast? = some TabVisualState.rejected) := by
  intro o
  rcases o with (⟨found, lu, pu⟩ | ⟨er, auth, lo⟩) | _ | m
  · cases found <;>
      simp [provenanceSessionTrace, backgroundDispatchStates, verifySourceReferenceOutcome,
        verifyDescriptorEpilogue, isAuthRequiredOutcome, isEngineFailureOutcome,
        isNotFoundOutcome]
  · cases auth <;>
      simp [provenanceSessionTrace, backgroundDispatchStates, verifySourceReferenceOutcome,
        verifyDescriptorEpilogue, isAuthRequiredOutcome, isEngineFailureOutcome,
        isNotFoundOutcome]
  · simp [provenanceSessionTrace, backgroundDispatchStates, verifySourceReferenceOutcome,
      verifyDescriptorEpilogue, isAuthRequiredOutcome, isEngineFailureOutcome,
      isNotFoundOutcome]
  · simp [provenanceSessionTrace, backgroundDispatchStates, verifySourceReferenceOutcome,
      verifyDescriptorEpilogue, isAuthRequiredOutcome, isEngineFailureOutcome,
      isNotFoundOutcome]

theorem claim_C9_witness :
    (provenanceSessionTrace (ProvenanceOutcome.response
        (Background.VerifySourceResponse.err [] true none))).getLast? =
      some TabVisualState.loading ∧
    TabVisualState.rejected ∉ provenanceSessionTrace (ProvenanceOutcome.response
        (Background.VerifySourceResponse.err [] true none)) :=
  (claim_C9_session_states (ProvenanceOutcome.response
    (Background.VerifySourceResponse.err [] true none))).1 rfl

/-- C10: every WebCrypto `AlgorithmIdentifier` — a string, an object with
a string name, or anything else — is mapped by
`algorithmIdentifierToFragment` to one of the tokens `sha256`, `sha384`,
`sha512` (the default `sha256` substituting for anything that does not
sanitize to a supported token); consequently, in the `integrity` value
`<token>-<digest>` embedded by `applyIntegrityFragment`, the algorithm
part recovered by splitting on `-` is always a supported token. -/
theorem claim_C10_algorithm_token :
    ∀ id : ContentScript.AlgorithmIdentifier,
    (ContentScript.algorithmIdentifierToFragment id = "sha256".toList ∨
     ContentScript.algorithmIdentifierToFragment id = "sha384".toList ∨
     ContentScript.algorithmIdentifierToFragment id = "sha512".toList) ∧
    ∀ digest : JStr,
      (splitOnCh '-' (ContentScript.algorithmIdentifierToFragment id ++ '-' :: digest)).head? =
        some (ContentScript.algorithmIdentifierToFragment id) := by
  intro id
  have hsup : ContentScript.algorithmIdentifierToFragment id = "sha256".toList ∨
      ContentScript.algorithmIdentifierToFragment id = "sha384".toList ∨
      ContentScript.algorithmIdentifierToFragment id = "sha512".toList := by
    cases id with
    | strId s => exact sanitizeAlgorithmToken_supported s
    | objId name => exact sanitizeAlgorithmToken_supported name
    | otherId => exact Or.inl rfl
  refine ⟨hsup, ?_⟩
  intro digest
  rcases hsup with hh | hh | hh <;> rw [hh, splitOnCh_append digest (by decide)] <;> rfl
